import Mathlib

/-!
# Calculation Validator & Evaluator — shallow embedding

A shallow embedding of the client-side validation module
(`static/js/validations.js`) of the calculator application, together with
theorems settling the specification claims about it.

Modelling conventions:
* JavaScript numbers are modelled by `ℚ` (idealised real arithmetic; the
  module only ever produces finite values on the paths the claims are about).
* A JavaScript string argument that may also be `null`/`undefined` is
  modelled by `Option String`; `none` stands for `null`/`undefined`.
* Strings are processed as `List Char`; `String.toList`/`String.mk`
  mediate at the boundaries.
* `parseFloat` is modelled by `jsParseFloat`, following the ECMAScript
  grammar for `parseFloat` (leading whitespace skip, optional sign,
  `Infinity`, decimal digits with optional fraction and exponent, longest
  valid numeric stem); `none` models the grammar-level `NaN` cases and
  literal `Infinity` tokens.  The numeric value of a parsed literal is its
  exact rational value: binary-double rounding, underflow and overflow are
  not modelled.  In particular a literal beyond the double range (about
  `1.8·10^308`), which JS evaluates to `Infinity` and `isValidNumber`
  then rejects, stays a finite rational here; statements over unbounded
  digit runs are therefore read over this idealised arithmetic, and every
  concrete input appearing in the theorems below lies far inside the
  double range, where the model and JS agree on classification.
-/

namespace Validations

/-- JS falsiness of an `Option String` value: `null`/`undefined`/`""`. -/
def jsFalsy (x : Option String) : Bool :=
  x = none ∨ x = some ""

/-- `String.prototype.toLowerCase` (ASCII range, which covers every string
that can match one of the four operation names). -/
def jsToLower (s : String) : String :=
  String.mk (s.toList.map Char.toLower)

/-- `x?.toLowerCase()` — optional chaining, safe on `null`. -/
def jsOptLower (x : Option String) : Option String :=
  x.map jsToLower

/-- `String.prototype.split(sep)` on a one-character separator, at the
`List Char` level.  Keeps empty segments, as in JS. -/
def splitOnChar (sep : Char) : List Char → List (List Char)
  | [] => [[]]
  | c :: cs =>
    if c = sep then [] :: splitOnChar sep cs
    else
      match splitOnChar sep cs with
      | [] => [[c]]
      | p :: ps => (c :: p) :: ps

/-- `String.prototype.trim` at the `List Char` level. -/
def jsTrim (l : List Char) : List Char :=
  ((l.dropWhile Char.isWhitespace).reverse.dropWhile Char.isWhitespace).reverse

/-- Value of a digit list read in base 10 (most significant digit first). -/
def digitsToNat (l : List Char) : ℕ :=
  l.foldl (fun n c => 10 * n + (c.toNat - '0'.toNat)) 0

/-- The exact rational value of a decimal literal with sign `neg`, integer
digits of value `I`, fraction digits of value `F` over `f` decimal places,
and decimal exponent `e` — that is, `±(I + F/10^f)·10^e` — built with
`mkRat` over integer arithmetic so that it evaluates by kernel reduction
(Batteries marks the `Rat` field operations irreducible). -/
def decimalValue (neg : Bool) (I F f : ℕ) (e : ℤ) : ℚ :=
  let n : ℤ := ((I * 10 ^ f + F : ℕ) : ℤ)
  let n : ℤ := if neg then -n else n
  if 0 ≤ e then mkRat (n * 10 ^ e.toNat) (10 ^ f)
  else mkRat n (10 ^ (f + (-e).toNat))

/-- Exponent part of the `parseFloat` grammar: if the list starts with
`e`/`E` followed by an optionally signed nonempty digit run, its signed
value; otherwise `0` (the exponent stem is then not part of the number,
but the numeric value is unaffected). -/
def expPart : List Char → ℤ
  | e :: rest =>
    if e = 'e' ∨ e = 'E' then
      if rest.head? = some '-' then -(digitsToNat (rest.tail.takeWhile Char.isDigit) : ℤ)
      else if rest.head? = some '+' then (digitsToNat (rest.tail.takeWhile Char.isDigit) : ℤ)
      else (digitsToNat (rest.takeWhile Char.isDigit) : ℤ)
    else 0
  | [] => 0

/-- Sign handling of the `parseFloat` grammar: strip one leading `+` or
`-`, reporting whether it was `-`. -/
def parseSign (l : List Char) : Bool × List Char :=
  if l.head? = some '-' then (true, l.tail)
  else if l.head? = some '+' then (false, l.tail)
  else (false, l)

/-- `parseFloat` on a character list, over exact rationals: parses the
longest numeric stem of the grammar.  `none` models the grammar-level
`NaN` results (no numeric stem at all) and literal `Infinity` tokens;
`some q` is the exact rational value of the parsed literal.  The
binary-double range is not modelled: a literal whose magnitude exceeds
about `1.8·10^308` evaluates to `Infinity` in JS and is then rejected by
`isValidNumber`, while here it remains a finite rational — see the module
header for this convention. -/
def jsParseFloat (l : List Char) : Option ℚ :=
  let sc := parseSign (l.dropWhile Char.isWhitespace)
  if sc.2.take 8 = "Infinity".toList then none
  else
    let intDs := sc.2.takeWhile Char.isDigit
    let rest1 := sc.2.dropWhile Char.isDigit
    let fracDs := if rest1.head? = some '.' then rest1.tail.takeWhile Char.isDigit else []
    let rest2 := if rest1.head? = some '.' then rest1.tail.dropWhile Char.isDigit else rest1
    if intDs.isEmpty ∧ fracDs.isEmpty then none
    else
      some (decimalValue sc.1 (digitsToNat intDs) (digitsToNat fracDs)
        fracDs.length (expPart rest2))

/-- `isValidNumber(value)`: `parseFloat` yields a finite non-`NaN` number. -/
def isValidNumber (value : String) : Bool :=
  (jsParseFloat value.toList).isSome

/-- The `ValidationMessages` constant object. -/
def EMPTY_FIELD : String := "This field is required"

def INVALID_NUMBER : String := "Please enter a valid number"

def INVALID_OPERATION : String := "Please select a valid operation type"

def INSUFFICIENT_INPUTS : String := "At least two numbers are required for a calculation"

def DIVISION_BY_ZERO : String := "Cannot divide by zero"

def EMPTY_INPUTS : String := "Please enter at least two numbers separated by commas"

def INVALID_INPUT_FORMAT : String := "Invalid input format. Please use comma-separated numbers"

def NO_VALID_NUMBERS : String := "No valid numbers found in the input"

/-- The `VALID_OPERATION_TYPES` constant list. -/
def VALID_OPERATION_TYPES : List String :=
  ["addition", "subtraction", "multiplication", "division"]

/-- `isValidOperationType(type)`:
`VALID_OPERATION_TYPES.includes(type?.toLowerCase())`. -/
def isValidOperationType (type : Option String) : Bool :=
  match jsOptLower type with
  | none => false
  | some s => VALID_OPERATION_TYPES.contains s

/-- Result object of `parseInputNumbers`:
`{ numbers, isValid, error?, warning? }`. -/
structure ParseResult where
  numbers : List ℚ
  isValid : Bool
  error : Option String
  warning : Bool
  deriving Repr, DecidableEq

/-- The message `Invalid numbers detected: ${invalidParts.join(', ')}. These
will be ignored.` -/
def mixedMessage (invalidParts : List (List Char)) : String :=
  "Invalid numbers detected: " ++
    String.intercalate ", " (invalidParts.map String.mk) ++
    ". These will be ignored."

/-- `parseInputNumbers(inputString)` — split on commas, trim, drop empty
segments, classify each segment with `isValidNumber`, and assemble the
result object exactly as the source does. -/
def parseInputNumbers (inputString : Option String) : ParseResult :=
  if jsFalsy inputString then
    ⟨[], false, some EMPTY_INPUTS, false⟩
  else
    let s := (inputString.getD "").toList
    let parts := ((splitOnChar ',' s).map jsTrim).filter (fun p => ¬ p.isEmpty)
    if parts.isEmpty then
      ⟨[], false, some EMPTY_INPUTS, false⟩
    else
      let numbers := parts.filterMap jsParseFloat
      let invalidParts := parts.filter (fun p => (jsParseFloat p).isNone)
      if numbers.isEmpty then
        ⟨[], false, some INVALID_INPUT_FORMAT, false⟩
      else if ¬ invalidParts.isEmpty then
        ⟨numbers, false, some (mixedMessage invalidParts), true⟩
      else
        ⟨numbers, true, none, false⟩

/-- The normalized `data` object: `{ type, inputs }`. -/
structure CalcData where
  type : String
  inputs : List ℚ
  deriving Repr, DecidableEq

/-- Result object of `validateCalculationInputs`:
`{ isValid, errors, warnings, data }`. -/
structure ValidationResult where
  isValid : Bool
  errors : List String
  warnings : List String
  data : Option CalcData
  deriving Repr, DecidableEq

/-- `validateCalculationInputs(operationType, inputsString)` — translated
branch by branch from the source: operation-type errors accumulate first,
then the parse error, then insufficient-operand and division-by-zero
checks; `data` is filled only when no error was pushed. -/
def validateCalculationInputs (operationType inputsString : Option String) :
    ValidationResult :=
  let opErrs : List String :=
    if jsFalsy operationType then ["Operation type is required"]
    else if ¬ isValidOperationType operationType then [INVALID_OPERATION]
    else []
  let pr := parseInputNumbers inputsString
  if ¬ pr.isValid then
    ⟨false, opErrs ++ [pr.error.getD ""], [], none⟩
  else
    let warns : List String := if pr.warning then [pr.error.getD ""] else []
    if pr.numbers.length < 2 then
      ⟨false, opErrs ++ [INSUFFICIENT_INPUTS], warns, none⟩
    else
      let divErrs : List String :=
        if jsOptLower operationType = some "division" ∧
            (pr.numbers.drop 1).any (fun x => decide (x = 0)) then
          [DIVISION_BY_ZERO]
        else []
      let errs := opErrs ++ divErrs
      if errs.isEmpty then
        ⟨true, [], warns, some ⟨(jsOptLower operationType).getD "", pr.numbers⟩⟩
      else
        ⟨false, errs, warns, none⟩

/-- Result object of `validateInputField`: `{ isValid, errors, warnings }`. -/
structure FieldResult where
  isValid : Bool
  errors : List String
  warnings : List String
  deriving Repr, DecidableEq

/-- The live-validation message
`${parseResult.numbers.length} number(s) found. At least 2 are required.` -/
def countFoundMessage (n : ℕ) : String :=
  toString n ++ " number(s) found. At least 2 are required."

/-- `validateInputField(inputElement)`, as a function of the field's
string value: trim, accept the empty field, otherwise parse and either
propagate the parse error or warn when fewer than 2 numbers are present. -/
def validateInputField (value : String) : FieldResult :=
  let v := jsTrim value.toList
  if v.isEmpty then
    ⟨true, [], []⟩
  else
    let pr := parseInputNumbers (some (String.mk v))
    if ¬ pr.isValid then
      ⟨false, [pr.error.getD ""], []⟩
    else
      ⟨true, [],
        (if pr.warning then [pr.error.getD ""] else []) ++
          (if pr.numbers.length < 2 then [countFoundMessage pr.numbers.length] else [])⟩

/-- `Array.prototype.reduce(f, init)` with the element index passed to the
callback, as used by the subtraction and division branches. -/
def jsReduce (f : α → β → ℕ → α) (init : α) (l : List β) : α :=
  l.enum.foldl (fun a p => f a p.2 p.1) init

/-- Value returned by `calculateResult`: a number, a message string, or
`null`. -/
inductive CalcResult where
  | num (q : ℚ)
  | msg (s : String)
  | null
  deriving Repr, DecidableEq

/-- `calculateResult(type, inputs)` — translated from the source `switch`:
guard `!inputs || inputs.length < 2`, then fold according to the lowercased
operation, with the index-0-skipping `reduce` for subtraction and division
and the explicit divisor-zero scan for division. -/
def calculateResult (type : Option String) (inputs : Option (List ℚ)) : CalcResult :=
  match inputs with
  | none => CalcResult.null
  | some l =>
    if l.length < 2 then CalcResult.null
    else
      let t := jsOptLower type
      if t = some "addition" then
        CalcResult.num (l.foldl (fun a b => a + b) 0)
      else if t = some "subtraction" then
        CalcResult.num (jsReduce (fun a b i => if i = 0 then a else a - b) l.headI l)
      else if t = some "multiplication" then
        CalcResult.num (l.foldl (fun a b => a * b) 1)
      else if t = some "division" then
        if l.enum.any (fun p => decide (0 < p.1) && decide (p.2 = 0)) then
          CalcResult.msg "Cannot divide by zero"
        else
          CalcResult.num (jsReduce (fun a b i => if i = 0 then a else a / b) l.headI l)
      else
        CalcResult.msg "Unknown operation"

/-- Reference evaluator, written from the spec's words (§4.5): addition is
a left fold summing from 0; subtraction is operand 0 minus each subsequent
operand in order; multiplication is a left fold of products from 1;
division is operand 0 divided by each subsequent operand in order, with a
domain-error value (not a thrown fault) when any subsequent operand is
exactly 0; fewer than 2 operands gives `null`; an unknown operation gives
an unknown-operation error value. -/
def refCalculate (type : Option String) (inputs : Option (List ℚ)) : CalcResult :=
  match inputs with
  | none => CalcResult.null
  | some [] => CalcResult.null
  | some (x :: xs) =>
    if (x :: xs).length < 2 then CalcResult.null
    else
      let t := jsOptLower type
      if t = some "addition" then
        CalcResult.num ((x :: xs).foldl (fun a b => a + b) 0)
      else if t = some "subtraction" then
        CalcResult.num (xs.foldl (fun a b => a - b) x)
      else if t = some "multiplication" then
        CalcResult.num ((x :: xs).foldl (fun a b => a * b) 1)
      else if t = some "division" then
        if xs.any (fun b => decide (b = 0)) then
          CalcResult.msg "Cannot divide by zero"
        else
          CalcResult.num (xs.foldl (fun a b => a / b) x)
      else
        CalcResult.msg "Unknown operation"

/-- `Math.round`: round half towards positive infinity. -/
def jsRound (q : ℚ) : ℤ :=
  ⌊q + 1 / 2⌋

/-- The data of the string produced by `Number.prototype.toExponential(4)`:
sign, the rounded mantissa scaled by `10^4` (so `12345` renders `1.2345`),
and the decimal exponent. -/
structure ExpoForm where
  neg : Bool
  mantissa : ℤ
  exp10 : ℤ
  deriving Repr, DecidableEq

/-- `num.toExponential(4)` for a nonzero rational: the exponent is
`⌊log₁₀ |q|⌋`, the mantissa is `|q|/10^exp` rounded to 4 decimal places,
with a carry into the exponent when rounding reaches `10`. -/
def jsToExponential4 (q : ℚ) : ExpoForm :=
  if q = 0 then ⟨false, 0, 0⟩
  else
    let e := Int.log 10 |q|
    let n := jsRound (|q| * (10 : ℚ) ^ ((4 : ℤ) - e))
    if n = 10 ^ 5 then ⟨decide (q < 0), 10 ^ 4, e + 1⟩
    else ⟨decide (q < 0), n, e⟩

/-- Display form produced by `formatNumber`: an exponential rendering or a
plain decimal value. -/
inductive Formatted where
  | expo (f : ExpoForm)
  | plain (q : ℚ)
  deriving Repr, DecidableEq

/-- `formatNumber(num)`: exponential notation for small nonzero magnitudes,
otherwise `Math.round(num * 10000) / 10000`.  The threshold `0.0001` is
written `mkRat 1 10000` (the same rational) so that the branch condition
evaluates by kernel reduction. -/
def formatNumber (q : ℚ) : Formatted :=
  if |q| < mkRat 1 10000 ∧ q ≠ 0 then
    Formatted.expo (jsToExponential4 q)
  else
    Formatted.plain ((jsRound (q * 10000) : ℚ) / 10000)

/-- `x.toLowerCase()` with no optional chaining: throws on `null`. -/
def jsToLowerE (x : Option String) : Except String String :=
  match x with
  | none => Except.error "TypeError: x is null"
  | some s => Except.ok (jsToLower s)

/-- `parseInputNumbers` in an exception monad: `inputString.split` is a
member access that would throw on `null`, but it sits behind the
`!inputString || typeof inputString !== 'string'` guard. -/
def parseInputNumbersE (inputString : Option String) : Except String ParseResult :=
  if jsFalsy inputString then
    Except.ok ⟨[], false, some EMPTY_INPUTS, false⟩
  else
    match inputString with
    | none => Except.error "TypeError: inputString is null"
    | some str =>
      let parts := ((splitOnChar ',' str.toList).map jsTrim).filter (fun p => ¬ p.isEmpty)
      if parts.isEmpty then
        Except.ok ⟨[], false, some EMPTY_INPUTS, false⟩
      else
        let numbers := parts.filterMap jsParseFloat
        let invalidParts := parts.filter (fun p => (jsParseFloat p).isNone)
        if numbers.isEmpty then
          Except.ok ⟨[], false, some INVALID_INPUT_FORMAT, false⟩
        else if ¬ invalidParts.isEmpty then
          Except.ok ⟨numbers, false, some (mixedMessage invalidParts), true⟩
        else
          Except.ok ⟨numbers, true, none, false⟩

/-- `validateCalculationInputs` in an exception monad: the one unguarded
member access on a possibly-`null` value is `operationType.toLowerCase()`
in the `data` assignment, modelled by `jsToLowerE`. -/
def validateCalculationInputsE (operationType inputsString : Option String) :
    Except String ValidationResult :=
  let opErrs : List String :=
    if jsFalsy operationType then ["Operation type is required"]
    else if ¬ isValidOperationType operationType then [INVALID_OPERATION]
    else []
  match parseInputNumbersE inputsString with
  | Except.error e => Except.error e
  | Except.ok pr =>
    if ¬ pr.isValid then
      Except.ok ⟨false, opErrs ++ [pr.error.getD ""], [], none⟩
    else
      let warns : List String := if pr.warning then [pr.error.getD ""] else []
      if pr.numbers.length < 2 then
        Except.ok ⟨false, opErrs ++ [INSUFFICIENT_INPUTS], warns, none⟩
      else
        let divErrs : List String :=
          if jsOptLower operationType = some "division" ∧
              (pr.numbers.drop 1).any (fun x => decide (x = 0)) then
            [DIVISION_BY_ZERO]
          else []
        let errs := opErrs ++ divErrs
        if errs.isEmpty then
          match jsToLowerE operationType with
          | Except.error e => Except.error e
          | Except.ok low => Except.ok ⟨true, [], warns, some ⟨low, pr.numbers⟩⟩
        else
          Except.ok ⟨false, errs, warns, none⟩

end Validations


namespace Validations

/-! ## Helper lemmas -/

theorem enumFrom_foldl_skip (g : ℚ → ℚ → ℚ) :
    ∀ (xs : List ℚ) (n : ℕ) (acc : ℚ), n ≠ 0 →
      (List.enumFrom n xs).foldl (fun a p => if p.1 = 0 then a else g a p.2) acc =
        xs.foldl g acc
  | [], _, _, _ => rfl
  | b :: bs, n, acc, h => by
    simp only [List.enumFrom, List.foldl]
    rw [if_neg h]
    exact enumFrom_foldl_skip g bs (n + 1) (g acc b) (Nat.succ_ne_zero n)

theorem jsReduce_skip_head (g : ℚ → ℚ → ℚ) (x : ℚ) (xs : List ℚ) :
    jsReduce (fun a b i => if i = 0 then a else g a b) x (x :: xs) = xs.foldl g x := by
  unfold jsReduce
  show (List.enumFrom 0 (x :: xs)).foldl (fun a p => if p.1 = 0 then a else g a p.2) x =
    xs.foldl g x
  simp only [List.enumFrom, List.foldl, if_pos rfl]
  exact enumFrom_foldl_skip g xs 1 x one_ne_zero

theorem enumFrom_any_pos (xs : List ℚ) :
    ∀ n : ℕ, n ≠ 0 →
      (List.enumFrom n xs).any (fun p => decide (0 < p.1) && decide (p.2 = 0)) =
        xs.any (fun b => decide (b = 0)) := by
  induction xs with
  | nil => intro n _; rfl
  | cons b bs ih =>
    intro n hn
    simp only [List.enumFrom, List.any]
    rw [ih (n + 1) (Nat.succ_ne_zero n)]
    have : decide (0 < n) = true := decide_eq_true (Nat.pos_of_ne_zero hn)
    rw [this, Bool.true_and]

theorem enum_any_posIdx (x : ℚ) (xs : List ℚ) :
    (x :: xs).enum.any (fun p => decide (0 < p.1) && decide (p.2 = 0)) =
      xs.any (fun b => decide (b = 0)) := by
  show (List.enumFrom 0 (x :: xs)).any (fun p => decide (0 < p.1) && decide (p.2 = 0)) =
    xs.any (fun b => decide (b = 0))
  simp only [List.enumFrom, List.any]
  rw [enumFrom_any_pos xs 1 one_ne_zero]
  simp

theorem parse_valid_shape (s : Option String)
    (h : (parseInputNumbers s).isValid = true) :
    (parseInputNumbers s).warning = false ∧ (parseInputNumbers s).error = none ∧
      (parseInputNumbers s).numbers ≠ [] := by
  revert h
  unfold parseInputNumbers
  dsimp only
  split
  · intro h; cases h
  · split
    · intro h; cases h
    · split
      · intro h; cases h
      · split
        · intro h; cases h
        · intro _
          refine ⟨rfl, rfl, ?_⟩
          simp_all [List.isEmpty_iff]

theorem parse_invalid_error (s : Option String)
    (h : (parseInputNumbers s).isValid = false) :
    ∃ e, (parseInputNumbers s).error = some e := by
  revert h
  unfold parseInputNumbers
  dsimp only
  split
  · exact fun _ => ⟨EMPTY_INPUTS, rfl⟩
  · split
    · exact fun _ => ⟨EMPTY_INPUTS, rfl⟩
    · split
      · exact fun _ => ⟨INVALID_INPUT_FORMAT, rfl⟩
      · split
        · exact fun _ => ⟨_, rfl⟩
        · intro h; cases h

/-! ## Claim theorems -/

/-- C1: the spec claims that for a mixed operand string such as
`"5, abc, 10"` under `"addition"`, `validateCalculationInputs` succeeds
with a warning and normalized operands `[5, 10]`.  The code instead marks
the result invalid: `parseInputNumbers` returns `isValid: false` on the
mixed path, so the caller pushes the mixed-tokens message onto `errors`
(never `warnings`) and produces no data.  This theorem evaluates the code
at the claim's own example, exhibiting the divergence. -/
theorem c1_mixed_input_is_rejected_by_code :
    validateCalculationInputs (some "addition") (some "5, abc, 10") =
      ⟨false, ["Invalid numbers detected: abc. These will be ignored."], [], none⟩ ∧
    parseInputNumbers (some "5, abc, 10") =
      ⟨[5, 10], false,
        some "Invalid numbers detected: abc. These will be ignored.", true⟩ := by
  constructor <;> decide

/-- C2: `parseInputNumbers` and `validateCalculationInputs` are total over
any string or absence thereof and never throw: the exception-monadic
mirrors (in which every unguarded member access on a possibly-`null` value
is a throwing operation) always return `Except.ok` of the structured
result computed by the pure functions. -/
theorem c2_validators_total_never_throw :
    (∀ s : Option String, parseInputNumbersE s = Except.ok (parseInputNumbers s)) ∧
    (∀ t s : Option String,
      validateCalculationInputsE t s = Except.ok (validateCalculationInputs t s)) := by
  have hp : ∀ s : Option String, parseInputNumbersE s = Except.ok (parseInputNumbers s) := by
    intro s
    cases s with
    | none => rfl
    | some str =>
      unfold parseInputNumbersE parseInputNumbers
      by_cases h : jsFalsy (some str)
      · simp [h]
      · simp only [h, Bool.false_eq_true, if_false, Option.getD]
        split <;> try rfl
        split <;> try rfl
        split <;> rfl
  refine ⟨hp, fun t s => ?_⟩
  unfold validateCalculationInputsE validateCalculationInputs
  rw [hp s]
  set pr := parseInputNumbers s with hpr
  by_cases hv : pr.isValid
  · simp only [hv, not_true, if_false, Bool.not_true, Bool.false_eq_true]
    by_cases hlen : pr.numbers.length < 2
    · simp [hlen]
    · simp only [hlen, if_false]
      by_cases hfal : jsFalsy t
      · -- operation missing: the required-error is nonempty, so `data` is
        -- never assigned and the unguarded `toLowerCase` is never reached
        simp [hfal]
      · cases t with
        | none => simp [jsFalsy] at hfal
        | some a =>
          by_cases hop : isValidOperationType (some a)
          · simp only [hfal, Bool.false_eq_true, if_false, hop, not_true, Bool.not_true]
            by_cases hdiv : jsOptLower (some a) = some "division" ∧
                (pr.numbers.drop 1).any (fun x => decide (x = 0))
            · have h02 : (0 : ℚ) ∈ pr.numbers.tail := by
                simpa using hdiv.2
              simp [hdiv, jsToLowerE, h02]
            · simp only [hdiv, jsToLowerE, jsOptLower, Option.map, if_false]
              split <;> rfl
          · simp [hfal, hop]
  · simp [hv]

/-- C4: `calculateResult` coincides with the reference evaluator written
from the spec: addition sums by a left fold from 0, subtraction subtracts
each subsequent operand from operand 0, multiplication multiplies by a
left fold from 1, division divides operand 0 by each subsequent operand
and yields a domain-error value when any subsequent operand is exactly 0,
fewer than 2 operands yield `null`, and an unknown operation yields the
unknown-operation error value. -/
theorem c4_calculateResult_eq_reference (t : Option String) (inputs : Option (List ℚ)) :
    calculateResult t inputs = refCalculate t inputs := by
  cases inputs with
  | none => rfl
  | some l =>
    cases l with
    | nil => rfl
    | cons x xs =>
      unfold calculateResult refCalculate
      by_cases hlen : (x :: xs).length < 2
      · simp only [hlen, if_pos]
      · simp only [hlen, if_false, List.headI]
        rw [jsReduce_skip_head (fun a b => a - b) x xs,
          jsReduce_skip_head (fun a b => a / b) x xs,
          enum_any_posIdx x xs]

/-- C3: for operation `"division"` and an operand string that parses
successfully to at least 2 numbers, validation fails with the
division-by-zero error exactly when some operand at index greater than 0
is exactly 0, and succeeds otherwise — so a leading 0 (the dividend)
alone never causes failure. -/
theorem c3_division_by_zero_iff_nonleading_zero (s : String)
    (hval : (parseInputNumbers (some s)).isValid = true)
    (hlen : 2 ≤ (parseInputNumbers (some s)).numbers.length) :
    ((∃ x ∈ (parseInputNumbers (some s)).numbers.drop 1, x = 0) →
      validateCalculationInputs (some "division") (some s) =
        ⟨false, [DIVISION_BY_ZERO], [], none⟩) ∧
    ((¬ ∃ x ∈ (parseInputNumbers (some s)).numbers.drop 1, x = 0) →
      validateCalculationInputs (some "division") (some s) =
        ⟨true, [], [], some ⟨"division", (parseInputNumbers (some s)).numbers⟩⟩) := by
  have hfal : jsFalsy (some "division") = false := by decide
  have hop : isValidOperationType (some "division") = true := by decide
  have hlow : jsOptLower (some "division") = some "division" := by decide
  have hwarn := (parse_valid_shape (some s) hval).1
  unfold validateCalculationInputs
  dsimp only
  rw [hfal, hop, hlow, hval, hwarn]
  simp only [Bool.false_eq_true, if_false, Bool.true_eq_false, not_false_eq_true,
    Bool.not_true, if_true, List.nil_append, Option.getD_some]
  have hlen2 : ¬ (parseInputNumbers (some s)).numbers.length < 2 := not_lt.mpr hlen
  rw [if_neg hlen2]
  constructor
  · intro hz
    have hmem : (0 : ℚ) ∈ (parseInputNumbers (some s)).numbers.tail := by
      obtain ⟨x, hx, rfl⟩ := hz
      simpa [List.drop_one] using hx
    simp [hmem]
  · intro hz
    have hmem : (0 : ℚ) ∉ (parseInputNumbers (some s)).numbers.tail := by
      intro h0
      exact hz ⟨0, by simpa [List.drop_one] using h0, rfl⟩
    simp [hmem]

/-- C3 witness: `"100, 0"` under division fails with the division-by-zero
error, and `"0, 100"` (leading zero only) succeeds. -/
theorem c3_witness :
    validateCalculationInputs (some "division") (some "100, 0") =
      ⟨false, [DIVISION_BY_ZERO], [], none⟩ ∧
    validateCalculationInputs (some "division") (some "0, 100") =
      ⟨true, [], [], some ⟨"division", (parseInputNumbers (some "0, 100")).numbers⟩⟩ :=
  ⟨(c3_division_by_zero_iff_nonleading_zero "100, 0" (by decide) (by decide)).1
      (by decide),
    (c3_division_by_zero_iff_nonleading_zero "0, 100" (by decide) (by decide)).2
      (by decide)⟩

/-- C5 counterexample: `"5, abc"` yields exactly one usable number, so the
claim requires the insufficient-operands error, but the code reports only
the mixed-tokens message: validation does fail, yet
`INSUFFICIENT_INPUTS` is not among the errors. -/
theorem c5_counterexample_mixed_single_number :
    (parseInputNumbers (some "5, abc")).numbers.length = 1 ∧
    (validateCalculationInputs (some "addition") (some "5, abc")).isValid = false ∧
    INSUFFICIENT_INPUTS ∉
      (validateCalculationInputs (some "addition") (some "5, abc")).errors := by
  refine ⟨by decide, by decide, ?_⟩
  decide

/-- C5 (as amended): for every operand string yielding fewer than 2 usable
numbers, `validateCalculationInputs` fails regardless of the supplied
operation; the insufficient-operands error is reported when the parse
succeeded (all tokens numeric, hence exactly one number), and otherwise
the parse's own error (empty-input, invalid-format, or mixed-tokens
message) is reported instead. -/
theorem c5_fewer_than_two_numbers_fails (t s : Option String)
    (h : (parseInputNumbers s).numbers.length < 2) :
    (validateCalculationInputs t s).isValid = false ∧
    ((parseInputNumbers s).isValid = true →
      INSUFFICIENT_INPUTS ∈ (validateCalculationInputs t s).errors) ∧
    ((parseInputNumbers s).isValid = false →
      ∃ e, (parseInputNumbers s).error = some e ∧
        e ∈ (validateCalculationInputs t s).errors) := by
  unfold validateCalculationInputs
  dsimp only
  by_cases hv : (parseInputNumbers s).isValid = true
  · rw [hv, if_neg (by simp : ¬ ¬ true = true), if_pos h]
    exact ⟨rfl, fun _ => List.mem_append.mpr (Or.inr (List.mem_singleton.mpr rfl)),
      fun hc => absurd hc (by decide)⟩
  · have hv' : (parseInputNumbers s).isValid = false := by
      simpa using hv
    obtain ⟨e, he⟩ := parse_invalid_error s hv'
    rw [hv', if_pos (by decide : ¬ false = true), he]
    refine ⟨rfl, fun hc => absurd hc (by decide), fun _ => ⟨e, rfl, ?_⟩⟩
    simp

/-- C5 witness: a single valid number under addition fails with the
insufficient-operands error. -/
theorem c5_witness :
    (validateCalculationInputs (some "addition") (some "5")).isValid = false ∧
    INSUFFICIENT_INPUTS ∈ (validateCalculationInputs (some "addition") (some "5")).errors :=
  ⟨(c5_fewer_than_two_numbers_fails (some "addition") (some "5") (by decide)).1,
    (c5_fewer_than_two_numbers_fails (some "addition") (some "5") (by decide)).2.1
      (by decide)⟩

/-- C9: the live field validator accepts an empty (or whitespace-only)
field with no diagnostics; and for a non-empty value whose parse succeeds
with fewer than 2 numbers (hence exactly one), it reports only the count
warning, leaving the errors empty and the field valid. -/
theorem c9_live_field_warning_not_error (v : String) :
    (jsTrim v.toList = [] → validateInputField v = ⟨true, [], []⟩) ∧
    ((parseInputNumbers (some (String.mk (jsTrim v.toList)))).isValid = true →
      (parseInputNumbers (some (String.mk (jsTrim v.toList)))).numbers.length < 2 →
      (parseInputNumbers (some (String.mk (jsTrim v.toList)))).numbers.length = 1 ∧
        validateInputField v = ⟨true, [], [countFoundMessage 1]⟩) := by
  constructor
  · intro he
    unfold validateInputField
    rw [he]
    rfl
  · intro hval hlen
    set pr := parseInputNumbers (some (String.mk (jsTrim v.toList))) with hpr
    obtain ⟨hwarn, -, hne⟩ := parse_valid_shape _ hval
    have h1 : pr.numbers.length = 1 := by
      have : 0 < pr.numbers.length := List.length_pos.mpr hne
      omega
    have hte : ¬ (jsTrim v.toList).isEmpty = true := by
      intro hemp
      rw [List.isEmpty_iff] at hemp
      rw [hpr, hemp] at hval
      cases hval
    refine ⟨h1, ?_⟩
    unfold validateInputField
    dsimp only
    rw [if_neg hte, ← hpr, hval, hwarn]
    simp only [Bool.true_eq_false, not_true, Bool.not_true, Bool.false_eq_true,
      if_false, if_true, List.nil_append]
    rw [if_pos (by rw [h1]; omega), h1]

/-- C9 witness: the empty field is silently valid, and the single number
`"5"` draws only the count warning. -/
theorem c9_witness :
    validateInputField "" = ⟨true, [], []⟩ ∧
    validateInputField "5" = ⟨true, [], [countFoundMessage 1]⟩ :=
  ⟨(c9_live_field_warning_not_error "").1 (by decide),
    ((c9_live_field_warning_not_error "5").2 (by decide) (by decide)).2⟩


theorem jsToLower_eq_empty_iff (s : String) : jsToLower s = "" ↔ s = "" := by
  constructor
  · intro h
    have hd := congrArg String.data h
    simp only [jsToLower] at hd
    have : s.toList = [] := by
      simpa using hd
    exact String.ext (by simpa using this)
  · intro h
    subst h
    rfl

theorem validate_lower_congr (a b : String) (inp : Option String)
    (htl : jsToLower a = jsToLower b) :
    validateCalculationInputs (some a) inp = validateCalculationInputs (some b) inp := by
  have hemp : a = "" ↔ b = "" := by
    rw [← jsToLower_eq_empty_iff a, ← jsToLower_eq_empty_iff b, htl]
  have h1 : jsFalsy (some a) = jsFalsy (some b) := by
    simp only [jsFalsy, Option.some.injEq]
    by_cases h : a = ""
    · simp [h, hemp.mp h]
    · have hb : ¬ b = "" := fun hb => h (hemp.mpr hb)
      simp [h, hb]
  have h2 : isValidOperationType (some a) = isValidOperationType (some b) := by
    simp [isValidOperationType, jsOptLower, htl]
  have h3 : jsOptLower (some a) = jsOptLower (some b) := by
    simp [jsOptLower, htl]
  unfold validateCalculationInputs
  rw [h1, h2, h3]

theorem validate_success_shape (t inp : Option String)
    (h : (validateCalculationInputs t inp).isValid = true) :
    jsFalsy t = false ∧ isValidOperationType t = true ∧
      (validateCalculationInputs t inp).data =
        some ⟨(jsOptLower t).getD "", (parseInputNumbers inp).numbers⟩ := by
  unfold validateCalculationInputs at h ⊢
  dsimp only at h ⊢
  by_cases hv : (parseInputNumbers inp).isValid = true
  · rw [hv, if_neg (by simp : ¬ ¬ true = true)] at h ⊢
    by_cases hlen : (parseInputNumbers inp).numbers.length < 2
    · rw [if_pos hlen] at h
      cases h
    · rw [if_neg hlen] at h ⊢
      by_cases hf : jsFalsy t = true
      · rw [if_pos hf] at h
        have hne : ∀ l : List String,
            ¬ ((["Operation type is required"] ++ l).isEmpty = true) := by simp
        rw [if_neg (hne _)] at h
        cases h
      · rw [if_neg hf] at h ⊢
        by_cases hvalid : isValidOperationType t = true
        · have hnv : ¬ ¬ isValidOperationType t = true := by simp [hvalid]
          rw [if_neg hnv] at h ⊢
          by_cases hdiv : jsOptLower t = some "division" ∧
              ((parseInputNumbers inp).numbers.drop 1).any (fun x => decide (x = 0)) = true
          · rw [if_pos hdiv] at h
            have hne : ¬ ((([] : List String) ++ [DIVISION_BY_ZERO]).isEmpty = true) := by simp
            rw [if_neg hne] at h
            cases h
          · rw [if_neg hdiv] at h ⊢
            have hyes : ((([] : List String) ++ []).isEmpty = true) := by simp
            rw [if_pos hyes]
            exact ⟨by simpa using hf, hvalid, rfl⟩
        · rw [if_pos hvalid] at h
          have hne : ∀ l : List String,
              ¬ (([INVALID_OPERATION] ++ l).isEmpty = true) := by simp
          rw [if_neg (hne _)] at h
          cases h
  · rw [(by simpa using hv : (parseInputNumbers inp).isValid = false),
      if_pos (by decide : ¬ false = true)] at h
    cases h

/-- C7: operation-type validation is case-insensitive over
{addition, subtraction, multiplication, division}: two spellings with the
same lowercasing validate to identical results; on success the normalized
type is the lowercase name and belongs to the supported set; and any
value whose lowercasing is not in the set — including the empty string and
null — fails with the required-operation or invalid-operation error. -/
theorem c7_operation_type_case_insensitive :
    (∀ (a b : String) (inp : Option String), jsToLower a = jsToLower b →
      validateCalculationInputs (some a) inp = validateCalculationInputs (some b) inp) ∧
    (∀ (a : String) (inp : Option String),
      (validateCalculationInputs (some a) inp).isValid = true →
      ∃ d, (validateCalculationInputs (some a) inp).data = some d ∧
        d.type = jsToLower a ∧ d.type ∈ VALID_OPERATION_TYPES) ∧
    (∀ (t inp : Option String), isValidOperationType t = false →
      (validateCalculationInputs t inp).isValid = false ∧
        ("Operation type is required" ∈ (validateCalculationInputs t inp).errors ∨
          INVALID_OPERATION ∈ (validateCalculationInputs t inp).errors)) := by
  refine ⟨validate_lower_congr, fun a inp h => ?_, fun t inp hop => ?_⟩
  · obtain ⟨-, hvalid, hdata⟩ := validate_success_shape (some a) inp h
    refine ⟨⟨jsToLower a, (parseInputNumbers inp).numbers⟩, by simpa using hdata, rfl, ?_⟩
    have hc : VALID_OPERATION_TYPES.contains (jsToLower a) = true := by
      simpa [isValidOperationType, jsOptLower] using hvalid
    simpa [List.elem_iff] using hc
  · unfold validateCalculationInputs
    dsimp only
    by_cases hf : jsFalsy t = true
    · simp only [hf, if_true, hop]
      split
      · exact ⟨rfl, Or.inl (by simp)⟩
      · split
        · exact ⟨rfl, Or.inl (by simp)⟩
        · split <;> exact ⟨by simp, Or.inl (by simp)⟩
    · simp only [hf, Bool.false_eq_true, if_false, hop, Bool.not_false, not_false_eq_true,
        Bool.not_eq_true, if_true]
      split
      · exact ⟨rfl, Or.inr (by simp)⟩
      · split
        · exact ⟨rfl, Or.inr (by simp)⟩
        · split <;> exact ⟨by simp, Or.inr (by simp)⟩

/-- C7 witness: `"ADDITION"` and `"Addition"` validate identically to each
other on a concrete input; the success data is normalized to lowercase;
and `"modulo"` fails with the invalid-operation error. -/
theorem c7_witness :
    validateCalculationInputs (some "ADDITION") (some "5, 10") =
      validateCalculationInputs (some "Addition") (some "5, 10") ∧
    (∃ d, (validateCalculationInputs (some "ADDITION") (some "5, 10")).data = some d ∧
      d.type = jsToLower "ADDITION" ∧ d.type ∈ VALID_OPERATION_TYPES) ∧
    ((validateCalculationInputs (some "modulo") (some "5, 10")).isValid = false ∧
      ("Operation type is required" ∈
          (validateCalculationInputs (some "modulo") (some "5, 10")).errors ∨
        INVALID_OPERATION ∈
          (validateCalculationInputs (some "modulo") (some "5, 10")).errors)) :=
  ⟨c7_operation_type_case_insensitive.1 "ADDITION" "Addition" (some "5, 10") (by decide),
    c7_operation_type_case_insensitive.2.1 "ADDITION" (some "5, 10") (by decide),
    c7_operation_type_case_insensitive.2.2 (some "modulo") (some "5, 10") (by decide)⟩


theorem digit_ne {c x : Char} (h : c.isDigit = true) (hx : x.isDigit = false) : c ≠ x := by
  intro he
  rw [he, hx] at h
  cases h

theorem not_ws_of_isDigit {c : Char} (h : c.isDigit = true) : c.isWhitespace = false := by
  by_contra hws
  have hws' : c.isWhitespace = true := by
    cases hv : c.isWhitespace
    · exact absurd hv hws
    · rfl
  have hc : ((c = ' ' ∨ c = '\t') ∨ c = '\r') ∨ c = '\n' := by
    simpa [Char.isWhitespace] using hws'
  rcases hc with ((rfl | rfl) | rfl) | rfl <;> exact absurd h (by decide)

theorem takeWhile_append_all (p : Char → Bool) :
    ∀ (l₁ l₂ : List Char), (∀ c ∈ l₁, p c = true) →
      (l₁ ++ l₂).takeWhile p = l₁ ++ l₂.takeWhile p
  | [], l₂, _ => by simp
  | c :: cs, l₂, h => by
    have hc : p c = true := h c (List.mem_cons_self c cs)
    simp only [List.cons_append, List.takeWhile_cons, hc, if_true]
    rw [takeWhile_append_all p cs l₂ (fun x hx => h x (List.mem_cons_of_mem c hx))]

theorem dropWhile_append_all (p : Char → Bool) :
    ∀ (l₁ l₂ : List Char), (∀ c ∈ l₁, p c = true) →
      (l₁ ++ l₂).dropWhile p = l₂.dropWhile p
  | [], l₂, _ => by simp
  | c :: cs, l₂, h => by
    have hc : p c = true := h c (List.mem_cons_self c cs)
    simp only [List.cons_append, List.dropWhile_cons, hc, if_true]
    exact dropWhile_append_all p cs l₂ (fun x hx => h x (List.mem_cons_of_mem c hx))

theorem takeWhile_all (p : Char → Bool) (l : List Char) (h : ∀ c ∈ l, p c = true) :
    l.takeWhile p = l := by
  have := takeWhile_append_all p l [] h
  simpa using this

theorem dropWhile_all_neg (p : Char → Bool) (l : List Char)
    (h : ∀ c ∈ l, p c = false) : l.dropWhile p = l := by
  cases l with
  | nil => rfl
  | cons c cs =>
    rw [List.dropWhile_cons, if_neg]
    rw [h c (List.mem_cons_self c cs)]
    simp

theorem jsTrim_eq_self (l : List Char) (h : ∀ c ∈ l, c.isWhitespace = false) :
    jsTrim l = l := by
  unfold jsTrim
  rw [dropWhile_all_neg _ l h]
  rw [dropWhile_all_neg _ l.reverse (fun c hc => h c (List.mem_reverse.mp hc))]
  exact List.reverse_reverse l

theorem splitOnChar_no_sep (sep : Char) :
    ∀ (l : List Char), (∀ c ∈ l, c ≠ sep) → splitOnChar sep l = [l]
  | [], _ => rfl
  | c :: cs, h => by
    unfold splitOnChar
    rw [if_neg (h c (List.mem_cons_self c cs))]
    rw [splitOnChar_no_sep sep cs (fun x hx => h x (List.mem_cons_of_mem c hx))]

theorem jsFalsy_some_mk (l : List Char) (h : l ≠ []) :
    jsFalsy (some (String.mk l)) = false := by
  simp only [jsFalsy, Option.some.injEq]
  rw [decide_eq_false]
  intro hc
  rcases hc with hc | hc
  · cases hc
  · exact h (by simpa using congrArg String.data hc)

theorem parseSign_cons_digit (d : Char) (t : List Char) (hd : d.isDigit = true) :
    parseSign (d :: t) = (false, d :: t) := by
  unfold parseSign
  rw [if_neg, if_neg]
  · simp only [List.head?_cons, Option.some.injEq]
    exact digit_ne hd (by decide)
  · simp only [List.head?_cons, Option.some.injEq]
    exact digit_ne hd (by decide)

/-- The numeric stem `±(digits)(junk that stops the grammar immediately)`:
`parseFloat` consumes the sign and the digit run, reads no fraction, and
hands the remainder to the exponent part. -/
theorem jsParseFloat_digits (neg : Bool) (ds rest : List Char)
    (hne : ds ≠ []) (hdig : ∀ c ∈ ds, c.isDigit = true)
    (hstop : ∀ c, rest.head? = some c → c.isDigit = false ∧ c ≠ '.') :
    jsParseFloat ((if neg then ['-'] else []) ++ (ds ++ rest)) =
      some (decimalValue neg (digitsToNat ds) 0 0 (expPart rest)) := by
  obtain ⟨d, ds', rfl⟩ := List.exists_cons_of_ne_nil hne
  have hd : d.isDigit = true := hdig d (List.mem_cons_self d ds')
  have hdw : ((if neg then ['-'] else []) ++ ((d :: ds') ++ rest)).dropWhile Char.isWhitespace
      = (if neg then ['-'] else []) ++ ((d :: ds') ++ rest) := by
    cases neg
    · simp only [Bool.false_eq_true, if_false, List.nil_append, List.cons_append]
      rw [List.dropWhile_cons, if_neg]
      rw [not_ws_of_isDigit hd]
      simp
    · simp only [if_true, List.cons_append, List.append_nil]
      rw [List.dropWhile_cons, if_neg]
      decide
  have hps : parseSign ((if neg then ['-'] else []) ++ ((d :: ds') ++ rest))
      = (neg, (d :: ds') ++ rest) := by
    cases neg
    · simp only [Bool.false_eq_true, if_false, List.nil_append]
      rw [List.cons_append]
      exact parseSign_cons_digit d (ds' ++ rest) hd
    · simp only [if_true]
      unfold parseSign
      rw [if_pos]
      · rfl
      · rfl
  have htake : ((d :: ds') ++ rest).takeWhile Char.isDigit = d :: ds' := by
    rw [takeWhile_append_all Char.isDigit (d :: ds') rest hdig]
    cases rest with
    | nil => simp
    | cons c r =>
      rw [List.takeWhile_cons, if_neg]
      · simp
      · rw [(hstop c rfl).1]
        simp
  have hdrop : ((d :: ds') ++ rest).dropWhile Char.isDigit = rest := by
    rw [dropWhile_append_all Char.isDigit (d :: ds') rest hdig]
    cases rest with
    | nil => rfl
    | cons c r =>
      rw [List.dropWhile_cons, if_neg]
      rw [(hstop c rfl).1]
      simp
  have take_cons_ne : ∀ (a b : Char) (l m : List Char) (n : ℕ), a ≠ b →
      ¬ ((a :: l).take (n + 1) = b :: m) := by
    intro a b l m n hab
    simp [List.take_succ_cons, hab]
  have hInf : ¬ (((d :: ds') ++ rest).take 8 = "Infinity".toList) := by
    rw [List.cons_append]
    rw [show "Infinity".toList = 'I' :: "nfinity".toList from rfl]
    exact take_cons_ne d 'I' (ds' ++ rest) "nfinity".toList 7 (digit_ne hd (by decide))
  have hdot : ¬ (rest.head? = some '.') := by
    cases rest with
    | nil => simp
    | cons c r =>
      simp only [List.head?_cons, Option.some.injEq]
      exact (hstop c rfl).2
  unfold jsParseFloat
  dsimp only
  rw [hdw, hps]
  dsimp only
  rw [if_neg hInf, htake, hdrop, if_neg hdot, if_neg hdot]
  rw [if_neg]
  · rfl
  · intro hc
    simp at hc



theorem decimalValue_exp_eq (I : ℕ) (e : ℤ) :
    decimalValue false I 0 0 e = (I : ℚ) * 10 ^ e := by
  unfold decimalValue
  dsimp only
  by_cases he : 0 ≤ e
  · rw [if_pos he, Rat.mkRat_eq_div]
    have h2 : (10 : ℚ) ^ e = (10 : ℚ) ^ e.toNat := by
      rw [← zpow_natCast (10 : ℚ) e.toNat, Int.toNat_of_nonneg he]
    rw [h2]
    push_cast
    ring
  · rw [if_neg he, Rat.mkRat_eq_div]
    have h2 : (10 : ℚ) ^ e = ((10 : ℚ) ^ (-e).toNat)⁻¹ := by
      rw [← zpow_natCast (10 : ℚ) (-e).toNat, Int.toNat_of_nonneg (by omega), zpow_neg,
        inv_inv]
    rw [h2]
    push_cast
    rw [div_eq_mul_inv]
    ring

theorem decimalValue_int_eq (neg : Bool) (I : ℕ) :
    decimalValue neg I 0 0 0 = (if neg then -(I : ℚ) else (I : ℚ)) := by
  cases neg
  · simpa using decimalValue_exp_eq I 0
  · unfold decimalValue
    dsimp only
    rw [if_pos (le_refl 0), Rat.mkRat_eq_div]
    push_cast
    norm_num

theorem parseInputNumbers_single_valid (L : List Char) (v : ℚ)
    (hL : L ≠ [])
    (hna : ∀ c ∈ L, c.isWhitespace = false ∧ c ≠ ',')
    (hv : jsParseFloat L = some v) :
    parseInputNumbers (some (String.mk L)) = ⟨[v], true, none, false⟩ := by
  have hLe : L.isEmpty = false := by
    cases L with
    | nil => exact absurd rfl hL
    | cons c cs => rfl
  unfold parseInputNumbers
  rw [jsFalsy_some_mk L hL]
  rw [if_neg (by simp : ¬ false = true)]
  dsimp only
  rw [Option.getD_some]
  rw [show (String.mk L).toList = L from rfl]
  rw [splitOnChar_no_sep ',' L (fun c hc => (hna c hc).2)]
  simp only [List.map_cons, List.map_nil]
  rw [jsTrim_eq_self L (fun c hc => (hna c hc).1)]
  rw [show ([L] : List (List Char)).filter (fun p => ¬ p.isEmpty) = [L] from by
    simp [List.filter_cons, hLe, hL]]
  rw [show List.filterMap jsParseFloat [L] = [v] from by simp [hv]]
  rw [show ([L] : List (List Char)).filter (fun p => (jsParseFloat p).isNone) = [] from by
    simp [hv]]
  rw [if_neg (by simp : ¬ (([L] : List (List Char)).isEmpty = true))]
  rw [if_neg (by simp : ¬ (([v] : List ℚ).isEmpty = true))]
  rw [if_neg (by simp : ¬ (¬ ([] : List (List Char)).isEmpty = true))]

/-- C6 counterexample: the token `"1e-5"` is written in exponential
notation, yet `isValidNumber` accepts it and `parseInputNumbers` returns
it parsed to `0.00001` (= `mkRat 1 100000`) with no diagnostic — the
rejection the claim requires does not happen. -/
theorem c6_counterexample_exponential_token_accepted :
    isValidNumber "1e-5" = true ∧
    parseInputNumbers (some "1e-5") = ⟨[mkRat 1 100000], true, none, false⟩ := by
  constructor <;> decide

/-- C6 (as amended): numeric parsing accepts an optional leading minus
sign and a decimal point, and does not reject exponential notation as
input: an exponential-notation token whose value lies in the finite
double range — such as the claim's own example `"1e-5"`, or `"2e7"` — is
classified as a valid number and parsed to its numeric value
(`mkRat 1 100000 = 0.00001`, `20000000`); the token `" -5.25 "` confirms
the minus sign and the decimal point.  At these inputs the exact-rational
model and JS `parseFloat` agree on both classification and value. -/
theorem c6_exponential_in_range_accepted :
    jsParseFloat " -5.25 ".toList = some (mkRat (-21) 4) ∧
    jsParseFloat "1e-5".toList = some (mkRat 1 100000) ∧
    jsParseFloat "2e7".toList = some 20000000 ∧
    isValidNumber "1e-5" = true ∧
    parseInputNumbers (some "1e-5") = ⟨[mkRat 1 100000], true, none, false⟩ := by
  refine ⟨?_, ?_, ?_, ?_, ?_⟩ <;> decide

/-- C10: a token whose leading characters form a decimal number (optional
minus sign, nonempty digit run) followed by trailing characters that stop
the numeric grammar (not a digit, `.`, `e` or `E`) is parsed to its
numeric stem by `parseFloat`, and `parseInputNumbers` classifies it as
valid, returning the stem's value with no error and no warning. -/
theorem c10_trailing_junk_token_is_valid (neg : Bool) (ds r : List Char)
    (hds : ds ≠ []) (hdig : ∀ c ∈ ds, c.isDigit = true) (hr : r ≠ [])
    (hjunk : ∀ c, r.head? = some c →
      c.isDigit = false ∧ c ≠ '.' ∧ c ≠ 'e' ∧ c ≠ 'E')
    (hclean : ∀ c ∈ r, c.isWhitespace = false ∧ c ≠ ',') :
    jsParseFloat ((if neg then ['-'] else []) ++ (ds ++ r)) =
      some (if neg then -(digitsToNat ds : ℚ) else (digitsToNat ds : ℚ)) ∧
    parseInputNumbers (some (String.mk ((if neg then ['-'] else []) ++ (ds ++ r)))) =
      ⟨[if neg then -(digitsToNat ds : ℚ) else (digitsToNat ds : ℚ)],
        true, none, false⟩ := by
  have hstop : ∀ c, r.head? = some c → c.isDigit = false ∧ c ≠ '.' :=
    fun c hc => ⟨(hjunk c hc).1, (hjunk c hc).2.1⟩
  have h := jsParseFloat_digits neg ds r hds hdig hstop
  have hexp : expPart r = 0 := by
    obtain ⟨c, r', rfl⟩ := List.exists_cons_of_ne_nil hr
    simp only [expPart]
    rw [if_neg]
    rintro (hce | hcE)
    · exact (hjunk c rfl).2.2.1 hce
    · exact (hjunk c rfl).2.2.2 hcE
  rw [hexp, decimalValue_int_eq] at h
  refine ⟨h, ?_⟩
  apply parseInputNumbers_single_valid _ _ ?_ ?_ h
  · cases neg
    · simp only [Bool.false_eq_true, if_false, List.nil_append]
      simp [hds]
    · simp
  · intro c hc
    rcases List.mem_append.mp hc with h1 | h23
    · cases neg
      · simp at h1
      · simp only [if_true, List.mem_singleton] at h1
        subst h1
        exact ⟨by decide, by decide⟩
    · rcases List.mem_append.mp h23 with h2 | h3
      · exact ⟨not_ws_of_isDigit (hdig c h2), digit_ne (hdig c h2) (by decide)⟩
      · exact hclean c h3

/-- C10 witness: `"5abc"` parses to 5 and is accepted as a single valid
token by `parseInputNumbers`. -/
theorem c10_witness :
    jsParseFloat ((if false then ['-'] else []) ++ (['5'] ++ ['a', 'b', 'c'])) =
      some (if false then -(digitsToNat ['5'] : ℚ) else (digitsToNat ['5'] : ℚ)) ∧
    parseInputNumbers
        (some (String.mk ((if false then ['-'] else []) ++ (['5'] ++ ['a', 'b', 'c'])))) =
      ⟨[if false then -(digitsToNat ['5'] : ℚ) else (digitsToNat ['5'] : ℚ)],
        true, none, false⟩ :=
  c10_trailing_junk_token_is_valid false ['5'] ['a', 'b', 'c'] (by decide) (by decide)
    (by decide) (by decide) (by decide)


/-- C8: `formatNumber` renders every number whose magnitude is nonzero and
below `0.0001` (written `mkRat 1 10000`) with `toExponential(4)`, whose
scaled mantissa always has exactly 5 digits — i.e. 4 fractional digits —
and renders every other number as a plain decimal equal to a multiple of
`10⁻⁴` obtained by rounding half-up (the unique integer `n` of
`(q·10⁴ − ½, q·10⁴ + ½]` divided by `10⁴`). -/
theorem c8_formatNumber_branches (q : ℚ) :
    (q ≠ 0 → |q| < mkRat 1 10000 →
      formatNumber q = Formatted.expo (jsToExponential4 q) ∧
      10000 ≤ (jsToExponential4 q).mantissa ∧ (jsToExponential4 q).mantissa < 100000) ∧
    (¬ (|q| < mkRat 1 10000 ∧ q ≠ 0) →
      ∃ n : ℤ, formatNumber q = Formatted.plain ((n : ℚ) / 10000) ∧
        q * 10000 - 1 / 2 < (n : ℚ) ∧ (n : ℚ) ≤ q * 10000 + 1 / 2) := by
  constructor
  · intro hz hlt
    have hfmt : formatNumber q = Formatted.expo (jsToExponential4 q) := by
      unfold formatNumber
      rw [if_pos ⟨hlt, hz⟩]
    refine ⟨hfmt, ?_⟩
    have ha : (0 : ℚ) < |q| := abs_pos.mpr hz
    have h1 : ((10 : ℕ) : ℚ) ^ Int.log 10 |q| ≤ |q| :=
      Int.zpow_log_le_self (by norm_num) ha
    have h2 : |q| < ((10 : ℕ) : ℚ) ^ (Int.log 10 |q| + 1) :=
      Int.lt_zpow_succ_log_self (by norm_num) |q|
    set e := Int.log 10 |q| with he
    have hc : (0 : ℚ) < (10 : ℚ) ^ ((4 : ℤ) - e) := zpow_pos (by norm_num) _
    have hcast : ((10 : ℕ) : ℚ) = (10 : ℚ) := by norm_num
    rw [hcast] at h1 h2
    have hm1 : (10 : ℚ) ^ (4 : ℤ) ≤ |q| * (10 : ℚ) ^ ((4 : ℤ) - e) := by
      have := mul_le_mul_of_nonneg_right h1 hc.le
      rwa [← zpow_add₀ (by norm_num : (10 : ℚ) ≠ 0), show e + (4 - e) = (4 : ℤ) by ring]
        at this
    have hm2 : |q| * (10 : ℚ) ^ ((4 : ℤ) - e) < (10 : ℚ) ^ (5 : ℤ) := by
      have := mul_lt_mul_of_pos_right h2 hc
      rwa [← zpow_add₀ (by norm_num : (10 : ℚ) ≠ 0),
        show e + 1 + (4 - e) = (5 : ℤ) by ring] at this
    have h4 : ((10 : ℚ) ^ (4 : ℤ)) = 10000 := by norm_num
    have h5 : ((10 : ℚ) ^ (5 : ℤ)) = 100000 := by norm_num
    rw [h4] at hm1
    rw [h5] at hm2
    have hlow : (10000 : ℤ) ≤ jsRound (|q| * (10 : ℚ) ^ ((4 : ℤ) - e)) := by
      rw [jsRound, Int.le_floor]
      push_cast
      linarith
    have hhigh : jsRound (|q| * (10 : ℚ) ^ ((4 : ℤ) - e)) ≤ 100000 := by
      rw [jsRound]
      have : (⌊|q| * (10 : ℚ) ^ ((4 : ℤ) - e) + 1 / 2⌋ : ℤ) < 100001 := by
        rw [Int.floor_lt]
        push_cast
        linarith
      omega
    unfold jsToExponential4
    rw [if_neg hz]
    dsimp only
    rw [← he]
    by_cases hn : jsRound (|q| * (10 : ℚ) ^ ((4 : ℤ) - e)) = 10 ^ 5
    · rw [if_pos hn]
      norm_num
    · rw [if_neg hn]
      dsimp only
      constructor
      · exact hlow
      · have : (10 : ℤ) ^ 5 = 100000 := by norm_num
        omega
  · intro hnot
    refine ⟨jsRound (q * 10000), ?_, ?_, ?_⟩
    · unfold formatNumber
      rw [if_neg hnot]
    · rw [jsRound]
      have := Int.lt_floor_add_one (q * 10000 + 1 / 2)
      push_cast at this ⊢
      linarith
    · rw [jsRound]
      have := Int.floor_le (q * 10000 + 1 / 2)
      push_cast at this ⊢
      linarith

/-- C8 witness: `0.00001` (= `mkRat 1 100000`) is rendered exponentially
with a 5-digit mantissa, and `2` falls to the plain-decimal branch. -/
theorem c8_witness :
    (formatNumber (mkRat 1 100000) = Formatted.expo (jsToExponential4 (mkRat 1 100000)) ∧
      10000 ≤ (jsToExponential4 (mkRat 1 100000)).mantissa ∧
      (jsToExponential4 (mkRat 1 100000)).mantissa < 100000) ∧
    (∃ n : ℤ, formatNumber 2 = Formatted.plain ((n : ℚ) / 10000) ∧
      (2 : ℚ) * 10000 - 1 / 2 < (n : ℚ) ∧ (n : ℚ) ≤ (2 : ℚ) * 10000 + 1 / 2) :=
  ⟨(c8_formatNumber_branches (mkRat 1 100000)).1 (by decide) (by decide),
    (c8_formatNumber_branches 2).2 (by decide)⟩

end Validations
